import Mathlib

/-!
Shallow embedding of the software rasterizer in `src/main.rs` (a single-file
Rust program) and proofs about it.

Modelling conventions:
* `f32` scalar values are modelled as exact rationals (`ℚ`).  The program's
  arithmetic (`+`, `-`, `*`, `/`, `min`, `max`, `clamp`, comparisons) is
  translated literally over `ℚ`.
* The three places the source takes a square root (`Vector3::normalize` for
  the light direction and for the two face-normal factors, and
  `Matrix4::look_at_rh` inside `Camera::generate_view_mat`) have no exact
  rational counterpart; they are kept abstract as function parameters
  (`normalizeF`, `normOf`, `genView`) that are threaded through the
  definitions exactly where the source calls them.
* Rust's `as` casts out of `f32` saturate (they truncate toward zero and
  clamp to the target type's range; this is guaranteed Rust behaviour since
  1.45).  They are modelled by `truncQ` / `i32OfQ` / `rustCastU8`.
* A non-finite normalized device coordinate (the source's division by
  `persproj.w`) is modelled by `Option`: `none` stands for the NaN screen
  sentinel the source pushes (`Point2::new(f32::NAN, f32::NAN)`).
* The mutable RGBA byte buffer `frame: &mut [u8]` is a `List ℕ`; the
  guarded four-byte `copy_from_slice` is `writeRGBA`.
-/

/-- A 2D screen-space point (`nalgebra::Point2<f32>`). -/
structure Pt2 where
  x : ℚ
  y : ℚ
  deriving DecidableEq

/-- A 3D vector or point (`nalgebra::Vector3<f32>` / `Point3<f32>`). -/
structure Vec3 where
  x : ℚ
  y : ℚ
  z : ℚ
  deriving DecidableEq

/-- A homogeneous 4-vector (`nalgebra::Vector4<f32>` / `Point4<f32>`). -/
structure Vec4 where
  x : ℚ
  y : ℚ
  z : ℚ
  w : ℚ
  deriving DecidableEq

/-- Modelled from the spec (§3 Data model): the `mesh` module's RGBA `Color`
with byte channels (`mod mesh;` is declared in `main.rs` but the module's
file is not under `src/`; `main.rs` reads fields `r`, `g`, `b`, `a` of type
`u8`).  Bytes are modelled as `ℕ`. -/
structure Color where
  r : ℕ
  g : ℕ
  b : ℕ
  a : ℕ
  deriving DecidableEq

/-- Modelled from the spec (§3 Data model): the `mesh` module's `Triangle` —
three vertex indices into the owning mesh's vertex list plus a flat RGBA
color (`main.rs` reads fields `v1`, `v2`, `v3`, `color`). -/
structure Triangle where
  v1 : ℕ
  v2 : ℕ
  v3 : ℕ
  color : Color

/-- Modelled from the spec (§3 Data model): a mesh is a vertex list plus a
triangle list; `main.rs` uses it only through `verts()` and `tris()`. -/
structure Mesh where
  verts : List Vec3
  tris : List Triangle

/-- A 4×4 matrix, row major as in `nalgebra::Matrix4::new`'s argument order:
`mij` is row `i`, column `j`. -/
structure Mat4 where
  m11 : ℚ
  m12 : ℚ
  m13 : ℚ
  m14 : ℚ
  m21 : ℚ
  m22 : ℚ
  m23 : ℚ
  m24 : ℚ
  m31 : ℚ
  m32 : ℚ
  m33 : ℚ
  m34 : ℚ
  m41 : ℚ
  m42 : ℚ
  m43 : ℚ
  m44 : ℚ
  deriving DecidableEq

/-- `pub struct Camera` from `main.rs`. -/
structure Camera where
  position : Vec3
  target : Vec3
  up : Vec3
  pitch : ℚ
  yaw : ℚ

/-- `pub struct Light` from `main.rs`. -/
structure Light where
  position : Vec3
  target : Vec3
  intensity : ℚ
  ambient : ℚ

/-- `pub struct Object` from `main.rs`: one mesh plus a translation offset. -/
structure Object where
  mesh : Mesh
  offset_x : ℚ
  offset_y : ℚ
  offset_z : ℚ

/-- `pub struct World` from `main.rs`. -/
structure World where
  camera : Camera
  light : Light
  models : List Object
  proj_mat : Mat4

/-- `const WIDTH: u32 = 500`. -/
def WIDTH : ℕ := 500

/-- `const HEIGHT: u32 = 500`. -/
def HEIGHT : ℕ := 500

/-- Matrix product (row `i` of `A` dotted with column `j` of `B`). -/
def Mat4.mul (A B : Mat4) : Mat4 :=
  ⟨A.m11 * B.m11 + A.m12 * B.m21 + A.m13 * B.m31 + A.m14 * B.m41,
   A.m11 * B.m12 + A.m12 * B.m22 + A.m13 * B.m32 + A.m14 * B.m42,
   A.m11 * B.m13 + A.m12 * B.m23 + A.m13 * B.m33 + A.m14 * B.m43,
   A.m11 * B.m14 + A.m12 * B.m24 + A.m13 * B.m34 + A.m14 * B.m44,
   A.m21 * B.m11 + A.m22 * B.m21 + A.m23 * B.m31 + A.m24 * B.m41,
   A.m21 * B.m12 + A.m22 * B.m22 + A.m23 * B.m32 + A.m24 * B.m42,
   A.m21 * B.m13 + A.m22 * B.m23 + A.m23 * B.m33 + A.m24 * B.m43,
   A.m21 * B.m14 + A.m22 * B.m24 + A.m23 * B.m34 + A.m24 * B.m44,
   A.m31 * B.m11 + A.m32 * B.m21 + A.m33 * B.m31 + A.m34 * B.m41,
   A.m31 * B.m12 + A.m32 * B.m22 + A.m33 * B.m32 + A.m34 * B.m42,
   A.m31 * B.m13 + A.m32 * B.m23 + A.m33 * B.m33 + A.m34 * B.m43,
   A.m31 * B.m14 + A.m32 * B.m24 + A.m33 * B.m34 + A.m34 * B.m44,
   A.m41 * B.m11 + A.m42 * B.m21 + A.m43 * B.m31 + A.m44 * B.m41,
   A.m41 * B.m12 + A.m42 * B.m22 + A.m43 * B.m32 + A.m44 * B.m42,
   A.m41 * B.m13 + A.m42 * B.m23 + A.m43 * B.m33 + A.m44 * B.m43,
   A.m41 * B.m14 + A.m42 * B.m24 + A.m43 * B.m34 + A.m44 * B.m44⟩

/-- Matrix–vector product. -/
def Mat4.mulVec (A : Mat4) (v : Vec4) : Vec4 :=
  ⟨A.m11 * v.x + A.m12 * v.y + A.m13 * v.z + A.m14 * v.w,
   A.m21 * v.x + A.m22 * v.y + A.m23 * v.z + A.m24 * v.w,
   A.m31 * v.x + A.m32 * v.y + A.m33 * v.z + A.m34 * v.w,
   A.m41 * v.x + A.m42 * v.y + A.m43 * v.z + A.m44 * v.w⟩

/-- `nalgebra`'s `Matrix4::transform_point`: transform the homogeneous
extension of the point and divide by the resulting `w` (for the affine
view·model matrices used by `object_depth`, `w = 1`). -/
def Mat4.transformPoint (A : Mat4) (p : Vec3) : Vec3 :=
  let h := A.mulVec ⟨p.x, p.y, p.z, 1⟩
  ⟨h.x / h.w, h.y / h.w, h.z / h.w⟩

/-- `Vector4::from(point)`: homogeneous extension with `w = 1`. -/
def homog (v : Vec3) : Vec4 := ⟨v.x, v.y, v.z, 1⟩

/-- `Vector4::xyz()`. -/
def Vec4.xyz (v : Vec4) : Vec3 := ⟨v.x, v.y, v.z⟩

/-- Componentwise vector difference (`a - b`). -/
def Vec3.sub (a b : Vec3) : Vec3 := ⟨a.x - b.x, a.y - b.y, a.z - b.z⟩

/-- `Vector3::dot`. -/
def dot3 (a b : Vec3) : ℚ := a.x * b.x + a.y * b.y + a.z * b.z

/-- The zero 4-vector, used as the (never reached for valid meshes) default
of list indexing. -/
def v4zero : Vec4 := ⟨0, 0, 0, 0⟩

/-- Truncation toward zero of a rational: the rounding of Rust `as` casts
from `f32` to an integer type. -/
def truncQ (q : ℚ) : ℤ := if 0 ≤ q then ⌊q⌋ else -⌊-q⌋

/-- Rust `expr as i32` on a finite `f32` value: truncate toward zero,
saturating to the `i32` range (Rust float-to-int `as` casts saturate). -/
def i32OfQ (q : ℚ) : ℤ := max (-2147483648) (min 2147483647 (truncQ q))

/-- Rust `expr as u32` on an `i32` value: two's-complement
reinterpretation. -/
def u32OfI32 (x : ℤ) : ℕ := (x % 4294967296).toNat

/-- Rust `expr as u8` on a finite `f32` value: truncate toward zero,
saturating to `[0, 255]` (Rust float-to-int `as` casts saturate; they do
not wrap). -/
def rustCastU8 (q : ℚ) : ℕ := (max 0 (min 255 (truncQ q))).toNat

/-- `f32::clamp(self, lo, hi) = self.max(lo).min(hi)` for finite values. -/
def clampQ (x lo hi : ℚ) : ℚ := min (max x lo) hi

/-- The `colormap` closure of `draw_triangle`:
`|comp: u8, coloring: f32| ((comp as f32) * coloring) as u8`. -/
def colormap (comp : ℕ) (coloring : ℚ) : ℕ := rustCastU8 ((comp : ℚ) * coloring)

/-- The `coloring` factor of `draw_triangle`:
`ambient + diffuse + specular` with
`diffuse = (light_dir.dot(norm) * intensity).clamp(0.0, 1.0)` and
`specular = 0.0`.  `lightDir` is the already-normalized light direction. -/
def coloringFactor (lightDir norm : Vec3) (intensity ambient : ℚ) : ℚ :=
  ambient + clampQ (dot3 lightDir norm * intensity) 0 1 + 0

/-- The shaded flat color `p_color` of `draw_triangle`: `colormap` applied
to the three color channels, alpha passed through. -/
def shadeColor (lightDir norm : Vec3) (intensity ambient : ℚ) (c : Color) : Color :=
  ⟨colormap c.r (coloringFactor lightDir norm intensity ambient),
   colormap c.g (coloringFactor lightDir norm intensity ambient),
   colormap c.b (coloringFactor lightDir norm intensity ambient),
   c.a⟩

/-- The `edge` closure of `draw_triangle`:
`(p.y - a.y) * (b.x - a.x) - (p.x - a.x) * (b.y - a.y)`. -/
def edge (a b p : Pt2) : ℚ := (p.y - a.y) * (b.x - a.x) - (p.x - a.x) * (b.y - a.y)

/-- The rasterizer's inclusive inside test: `w0 >= 0 && w1 >= 0 && w2 >= 0`
for the edges `(t2,t3)`, `(t3,t1)`, `(t1,t2)` against `p`. -/
def insideTri (t1 t2 t3 p : Pt2) : Prop :=
  0 ≤ edge t2 t3 p ∧ 0 ≤ edge t3 t1 p ∧ 0 ≤ edge t1 t2 p

instance (t1 t2 t3 p : Pt2) : Decidable (insideTri t1 t2 t3 p) := by
  unfold insideTri; infer_instance

/-- The 2D cross product of `is_front_facing`:
`(p2.x - p1.x) * (p3.y - p1.y) - (p2.y - p1.y) * (p3.x - p1.x)`. -/
def signedCross (p1 p2 p3 : Pt2) : ℚ :=
  (p2.x - p1.x) * (p3.y - p1.y) - (p2.y - p1.y) * (p3.x - p1.x)

/-- `fn is_front_facing`: the triangle is kept iff the cross product is
strictly positive. -/
def is_front_facing (p1 p2 p3 : Pt2) : Bool := decide (0 < signedCross p1 p2 p3)

/-- `min_x` of `draw_triangle`'s bounding box:
`(x1.min(x2).min(x3).max(0.0)) as i32`. -/
def boxMinX (t1 t2 t3 : Pt2) : ℤ := i32OfQ (max (min (min t1.x t2.x) t3.x) 0)

/-- `max_x` of `draw_triangle`'s bounding box:
`(x1.max(x2).max(x3).min(WIDTH as f32 - 1.0) + 1.0) as i32`. -/
def boxMaxX (t1 t2 t3 : Pt2) : ℤ :=
  i32OfQ (min (max (max t1.x t2.x) t3.x) ((WIDTH : ℚ) - 1) + 1)

/-- `min_y` of `draw_triangle`'s bounding box. -/
def boxMinY (t1 t2 t3 : Pt2) : ℤ := i32OfQ (max (min (min t1.y t2.y) t3.y) 0)

/-- `max_y` of `draw_triangle`'s bounding box. -/
def boxMaxY (t1 t2 t3 : Pt2) : ℤ :=
  i32OfQ (min (max (max t1.y t2.y) t3.y) ((HEIGHT : ℚ) - 1) + 1)

/-- The inclusive integer range `lo..=hi` of a Rust `for` loop (empty when
`hi < lo`). -/
def intRange (lo hi : ℤ) : List ℤ :=
  (List.range (hi + 1 - lo).toNat).map (fun i : ℕ => lo + (i : ℤ))

/-- The byte index `(y as u32 * WIDTH + x as u32) * 4` computed in `u32`
arithmetic (wrapping at `2^32` at each step, as released Rust does). -/
def idxOf (x y : ℤ) : ℕ :=
  (u32OfI32 y * WIDTH % 4294967296 + u32OfI32 x) % 4294967296 * 4 % 4294967296

/-- The guarded pixel write of `draw_triangle`:
`if index + 4 <= frame.len() { frame[index..index+4].copy_from_slice(...) }`. -/
def writeRGBA (frame : List ℕ) (idx : ℕ) (c : Color) : List ℕ :=
  if idx + 4 ≤ frame.length then
    ((((frame.set idx c.r).set (idx + 1) c.g).set (idx + 2) c.b).set (idx + 3) c.a)
  else frame

/-- The `(x, y)` pixel positions visited by `draw_triangle`'s nested loops
(`for y in min_y..=max_y { for x in min_x..=max_x { ... } }`), in loop
order, restricted to those passing the inside test. -/
def pixelEvents (t1 t2 t3 : Pt2) : List (ℤ × ℤ) :=
  (intRange (boxMinY t1 t2 t3) (boxMaxY t1 t2 t3)).flatMap (fun y =>
    (intRange (boxMinX t1 t2 t3) (boxMaxX t1 t2 t3)).filterMap (fun x =>
      if insideTri t1 t2 t3 ⟨Int.cast x, Int.cast y⟩ then some (x, y) else none))

/-- Perform the guarded writes of a list of pixel positions, all with one
flat color. -/
def foldWrites (pc : Color) (l : List (ℤ × ℤ)) (frame : List ℕ) : List ℕ :=
  l.foldl (fun fr e => writeRGBA fr (idxOf e.1 e.2) pc) frame

/-- The rasterization half of `draw_triangle`: bounding box, inside test
and guarded writes. -/
def rasterFill (t1 t2 t3 : Pt2) (pc : Color) (frame : List ℕ) : List ℕ :=
  foldWrites pc (pixelEvents t1 t2 t3) frame

/-- `World::draw_triangle`.  Its first line computes
`light_dir = (self.light.target - self.light.position).normalize()`; the
normalization (an `f32` square root) is the abstract parameter
`normalizeF`.  The face normal `norm` is passed in by the caller, as in the
source. -/
def draw_triangle (normalizeF : Vec3 → Vec3) (light : Light) (t1 t2 t3 : Pt2)
    (color : Color) (frame : List ℕ) (norm : Vec3) : List ℕ :=
  rasterFill t1 t2 t3
    (shadeColor (normalizeF (light.target.sub light.position)) norm
      light.intensity light.ambient color)
    frame

/-- `proj * Point4::new(vertex.x, vertex.y, vertex.z, 1.0)`. -/
def persProj (proj : Mat4) (v : Vec3) : Vec4 := proj.mulVec (homog v)

/-- The per-vertex screen projection of `World::draw`: perspective divide,
depth-range check, screen mapping.  `none` is the NaN screen sentinel the
source pushes when `ndc_z` fails `(0.0..=1.0).contains`; a vanishing
homogeneous `w` (the source's non-finite division result, which also fails
the `contains` check) likewise yields the sentinel. -/
def screenVertex (proj : Mat4) (v : Vec3) : Option Pt2 :=
  let pp := persProj proj v
  if pp.w = 0 then none
  else
    let ndcX := pp.x / pp.w
    let ndcY := pp.y / pp.w
    let ndcZ := pp.z / pp.w
    if 0 ≤ ndcZ ∧ ndcZ ≤ 1 then
      some ⟨(ndcX + 1) * (1 / 2) * (WIDTH : ℚ), (1 - ndcY) * (1 / 2) * (HEIGHT : ℚ)⟩
    else none

/-- The `screen_verts` vector of `World::draw`. -/
def screenVertsOf (proj : Mat4) (verts : List Vec3) : List (Option Pt2) :=
  verts.map (screenVertex proj)

/-- The `zbuffer` vector of `World::draw`:
`view_mat * model_mat * Vector4::from(vertex)` per vertex. -/
def zbufferOf (view_mat model_mat : Mat4) (verts : List Vec3) : List Vec4 :=
  verts.map (fun v => (view_mat.mul model_mat).mulVec (homog v))

/-- The `transformed_verts` vector of `World::draw`:
`model_mat * Vector4::from(vertex)` per vertex. -/
def transformedVertsOf (model_mat : Mat4) (verts : List Vec3) : List Vec4 :=
  verts.map (fun v => model_mat.mulVec (homog v))

/-- The keyed triangle list of `World::draw` before sorting: each triangle
paired with `(zbuffer[v1].z + zbuffer[v2].z + zbuffer[v3].z) / 3.0`. -/
def triKeyList (view_mat model_mat : Mat4) (mesh : Mesh) : List (Triangle × ℚ) :=
  let zb := zbufferOf view_mat model_mat mesh.verts
  mesh.tris.map (fun tri =>
    (tri, ((zb.getD tri.v1 v4zero).z + (zb.getD tri.v2 v4zero).z +
      (zb.getD tri.v3 v4zero).z) / 3))

/-- `z_ordered_tris`: the keyed triangles sorted ascending by key
(`sort_by_key` with `OrderedFloat`; over `ℚ` the key order is `≤`). -/
def zOrderedTris (view_mat model_mat : Mat4) (mesh : Mesh) : List (Triangle × ℚ) :=
  (triKeyList view_mat model_mat mesh).mergeSort (fun a b => decide (a.2 ≤ b.2))

/-- The per-triangle body of `World::draw`'s inner loop: skip when any
screen vertex is the NaN sentinel, otherwise compute the face normal
(`normOf u w` stands for `u.normalize().cross(&w.normalize())`, the
square-root-based normal kept abstract) and rasterize if front-facing. -/
def triStep (normalizeF : Vec3 → Vec3) (normOf : Vec3 → Vec3 → Vec3) (light : Light)
    (screen_verts : List (Option Pt2)) (transformed_verts : List Vec4)
    (tri : Triangle) (frame : List ℕ) : List ℕ :=
  match screen_verts.getD tri.v1 none, screen_verts.getD tri.v2 none,
      screen_verts.getD tri.v3 none with
  | some s1, some s2, some s3 =>
    let v1 := transformed_verts.getD tri.v1 v4zero
    let v2 := transformed_verts.getD tri.v2 v4zero
    let v3 := transformed_verts.getD tri.v3 v4zero
    let norm := normOf (v2.xyz.sub v1.xyz) (v3.xyz.sub v1.xyz)
    if is_front_facing s1 s2 s3 then
      draw_triangle normalizeF light s1 s2 s3 tri.color frame norm
    else frame
  | _, _, _ => frame

/-- The per-object body of `World::draw`'s outer loop: project the
vertices, sort the triangles by mean camera-space depth, draw them in
order. -/
def drawObject (normalizeF : Vec3 → Vec3) (normOf : Vec3 → Vec3 → Vec3) (light : Light)
    (proj_mat view_mat : Mat4) (om : Object × Mat4) (frame : List ℕ) : List ℕ :=
  let model_mat := om.2
  let mesh := om.1.mesh
  let proj := (proj_mat.mul view_mat).mul model_mat
  let screen_verts := screenVertsOf proj mesh.verts
  let transformed_verts := transformedVertsOf model_mat mesh.verts
  (zOrderedTris view_mat model_mat mesh).foldl
    (fun fr tz => triStep normalizeF normOf light screen_verts transformed_verts tz.1 fr)
    frame

/-- The translation-only model matrix built inline in `World::draw` from an
object's offsets. -/
def modelMatOf (m : Object) : Mat4 :=
  ⟨1, 0, 0, m.offset_x,
   0, 1, 0, m.offset_y,
   0, 0, 1, m.offset_z,
   0, 0, 0, 1⟩

/-- `fn object_depth`: regenerate the view matrix from the camera
(`camera.generate_view_mat()`, the abstract `genView`), multiply by the
model matrix, transform the world origin, take its camera-space `z`. -/
def object_depth (genView : Camera → Mat4) (camera : Camera) (model_mat : Mat4) : ℚ :=
  (((genView camera).mul model_mat).transformPoint ⟨0, 0, 0⟩).z

/-- `sorted_models` of `World::draw`: each object paired with its
translation model matrix, sorted ascending by `object_depth` of the
*current* camera (the passed-in view matrix plays no part). -/
def sortedModels (genView : Camera → Mat4) (w : World) : List (Object × Mat4) :=
  (w.models.map (fun m => (m, modelMatOf m))).mergeSort
    (fun a b => decide (object_depth genView w.camera a.2 ≤ object_depth genView w.camera b.2))

/-- `World::draw`.  The source takes `&mut self` but never writes to it, so
the embedding returns the world next to the repainted buffer.  `frame.fill(255)`
becomes a buffer of the same length holding 255 everywhere. -/
def World.draw (genView : Camera → Mat4) (normalizeF : Vec3 → Vec3)
    (normOf : Vec3 → Vec3 → Vec3) (w : World) (view_mat : Mat4) (frame : List ℕ) :
    World × List ℕ :=
  (w,
    (sortedModels genView w).foldl
      (fun fr om => drawObject normalizeF normOf w.light w.proj_mat view_mat om fr)
      (List.replicate frame.length 255))

/-! Helper lemmas about list writes, loop ranges and the numeric casts. -/

theorem getD_set_self {α : Type} (l : List α) (i : ℕ) (v d : α) (h : i < l.length) :
    (l.set i v).getD i d = v := by
  rw [List.getD_eq_getElem?_getD, List.getElem?_set_self h]; rfl

theorem getD_set_ne {α : Type} (l : List α) {i j : ℕ} (v d : α) (h : i ≠ j) :
    (l.set i v).getD j d = l.getD j d := by
  rw [List.getD_eq_getElem?_getD, List.getElem?_set_ne h, ← List.getD_eq_getElem?_getD]

theorem writeRGBA_length (frame : List ℕ) (idx : ℕ) (c : Color) :
    (writeRGBA frame idx c).length = frame.length := by
  unfold writeRGBA; split <;> simp

theorem writeRGBA_oob {frame : List ℕ} {idx : ℕ} (c : Color) (h : frame.length < idx + 4) :
    writeRGBA frame idx c = frame := by
  unfold writeRGBA; rw [if_neg]; omega

theorem writeRGBA_getD_outside {frame : List ℕ} {idx j : ℕ} (c : Color)
    (h : j < idx ∨ idx + 4 ≤ j) :
    (writeRGBA frame idx c).getD j 0 = frame.getD j 0 := by
  unfold writeRGBA; split
  · rw [getD_set_ne _ _ _ (by omega), getD_set_ne _ _ _ (by omega),
      getD_set_ne _ _ _ (by omega), getD_set_ne _ _ _ (by omega)]
  · rfl

theorem writeRGBA_getD_bytes {frame : List ℕ} {idx : ℕ} (c : Color)
    (h : idx + 4 ≤ frame.length) :
    (writeRGBA frame idx c).getD idx 0 = c.r ∧
    (writeRGBA frame idx c).getD (idx + 1) 0 = c.g ∧
    (writeRGBA frame idx c).getD (idx + 2) 0 = c.b ∧
    (writeRGBA frame idx c).getD (idx + 3) 0 = c.a := by
  unfold writeRGBA
  rw [if_pos h]
  refine ⟨?_, ?_, ?_, ?_⟩
  · rw [getD_set_ne _ _ _ (by omega), getD_set_ne _ _ _ (by omega),
      getD_set_ne _ _ _ (by omega), getD_set_self _ _ _ _ (by omega)]
  · rw [getD_set_ne _ _ _ (by omega), getD_set_ne _ _ _ (by omega),
      getD_set_self _ _ _ _ (by simp; omega)]
  · rw [getD_set_ne _ _ _ (by omega),
      getD_set_self _ _ _ _ (by simp; omega)]
  · rw [getD_set_self _ _ _ _ (by simp; omega)]

theorem foldWrites_length (pc : Color) (l : List (ℤ × ℤ)) (frame : List ℕ) :
    (foldWrites pc l frame).length = frame.length := by
  induction l generalizing frame with
  | nil => rfl
  | cons e tl ih =>
    show (foldWrites pc tl (writeRGBA frame (idxOf e.1 e.2) pc)).length = frame.length
    rw [ih, writeRGBA_length]

theorem foldWrites_getD_ge (pc : Color) (l : List (ℤ × ℤ)) (frame : List ℕ) {j : ℕ}
    (h : frame.length ≤ j) :
    (foldWrites pc l frame).getD j 0 = frame.getD j 0 := by
  rw [List.getD_eq_default _ _ (by rw [foldWrites_length]; omega),
    List.getD_eq_default _ _ h]

theorem foldWrites_getD_mem (pc : Color) (l : List (ℤ × ℤ)) (frame : List ℕ) (i : ℕ)
    (hdvd : 4 ∣ i) (hall : ∀ e ∈ l, 4 ∣ idxOf e.1 e.2) (hle : i + 4 ≤ frame.length)
    (h : (∃ e ∈ l, idxOf e.1 e.2 = i) ∨
      (frame.getD i 0 = pc.r ∧ frame.getD (i + 1) 0 = pc.g ∧
        frame.getD (i + 2) 0 = pc.b ∧ frame.getD (i + 3) 0 = pc.a)) :
    (foldWrites pc l frame).getD i 0 = pc.r ∧
    (foldWrites pc l frame).getD (i + 1) 0 = pc.g ∧
    (foldWrites pc l frame).getD (i + 2) 0 = pc.b ∧
    (foldWrites pc l frame).getD (i + 3) 0 = pc.a := by
  induction l generalizing frame with
  | nil =>
    rcases h with ⟨e, he, _⟩ | h
    · exact absurd he (List.not_mem_nil e)
    · exact h
  | cons e tl ih =>
    have hstep : foldWrites pc (e :: tl) frame =
        foldWrites pc tl (writeRGBA frame (idxOf e.1 e.2) pc) := rfl
    rw [hstep]
    have hlen' : i + 4 ≤ (writeRGBA frame (idxOf e.1 e.2) pc).length := by
      rw [writeRGBA_length]; exact hle
    have hall' : ∀ e' ∈ tl, 4 ∣ idxOf e'.1 e'.2 :=
      fun e' he' => hall e' (List.mem_cons_of_mem e he')
    apply ih _ hall' hlen'
    rcases h with ⟨e', he', heq⟩ | hbytes
    · rcases List.mem_cons.mp he' with rfl | htl
      · right
        rw [heq]
        exact writeRGBA_getD_bytes pc hle
      · by_cases hi : idxOf e.1 e.2 = i
        · right
          rw [hi]
          exact writeRGBA_getD_bytes pc hle
        · exact Or.inl ⟨e', htl, heq⟩
    · right
      by_cases hi : idxOf e.1 e.2 = i
      · rw [hi]
        exact writeRGBA_getD_bytes pc hle
      · have hd : 4 ∣ idxOf e.1 e.2 := hall e (List.mem_cons_self e tl)
        refine ⟨?_, ?_, ?_, ?_⟩ <;>
          rw [writeRGBA_getD_outside pc (by omega)] <;> tauto

theorem mem_intRange {lo hi a : ℤ} : a ∈ intRange lo hi ↔ lo ≤ a ∧ a ≤ hi := by
  unfold intRange
  simp only [List.mem_map, List.mem_range]
  constructor
  · rintro ⟨i, hi', rfl⟩
    omega
  · rintro ⟨h1, h2⟩
    exact ⟨(a - lo).toNat, by omega, by omega⟩

theorem idxOf_dvd (x y : ℤ) : 4 ∣ idxOf x y := by
  unfold idxOf
  omega

theorem idxOf_small {x y : ℤ} (hx : 0 ≤ x) (hx2 : x ≤ 500) (hy : 0 ≤ y) (hy2 : y ≤ 500) :
    idxOf x y = (y.toNat * 500 + x.toNat) * 4 := by
  unfold idxOf u32OfI32 WIDTH
  omega

theorem truncQ_of_nonneg {q : ℚ} (h : 0 ≤ q) : truncQ q = ⌊q⌋ := if_pos h

theorem truncQ_intCast (n : ℤ) : truncQ (n : ℚ) = n := by
  unfold truncQ
  split
  · exact Int.floor_intCast n
  · rw [← Int.cast_neg, Int.floor_intCast]; omega

theorem rustCastU8_sat {q : ℚ} (h : 255 < q) : rustCastU8 q = 255 := by
  have h0 : (0 : ℚ) ≤ q := by linarith
  have hf : (255 : ℤ) ≤ ⌊q⌋ := Int.le_floor.mpr (by exact_mod_cast h.le)
  unfold rustCastU8
  rw [truncQ_of_nonneg h0, min_eq_left hf, max_eq_right (by norm_num : (0:ℤ) ≤ 255)]
  rfl

theorem rustCastU8_in_range {q : ℚ} (h0 : 0 ≤ q) (h255 : q ≤ 255) :
    (rustCastU8 q : ℤ) = ⌊q⌋ := by
  have hf0 : (0 : ℤ) ≤ ⌊q⌋ := Int.le_floor.mpr (by exact_mod_cast h0)
  have hf255 : ⌊q⌋ ≤ 255 := by
    have := Int.floor_le_floor (α := ℚ) h255
    simpa using this
  unfold rustCastU8
  rw [truncQ_of_nonneg h0, min_eq_right hf255, max_eq_right hf0, Int.toNat_of_nonneg hf0]

theorem i32OfQ_nonneg_arg {q : ℚ} (h : 0 ≤ q) : 0 ≤ i32OfQ q := by
  unfold i32OfQ truncQ
  rw [if_pos h]
  have : (0:ℤ) ≤ ⌊q⌋ := Int.le_floor.mpr (by exact_mod_cast h)
  omega

theorem pairwise_mergeSort_key {α : Type} (f : α → ℚ) (l : List α) :
    (l.mergeSort (fun a b => decide (f a ≤ f b))).Pairwise (fun a b => f a ≤ f b) := by
  have h := @List.sorted_mergeSort α (fun a b => decide (f a ≤ f b))
    (fun a b c hab hbc => by
      simp only [decide_eq_true_eq] at *
      exact le_trans hab hbc)
    (fun a b => by
      simp only [Bool.or_eq_true, decide_eq_true_eq]
      exact le_total (f a) (f b))
    l
  exact h.imp (fun hab => of_decide_eq_true hab)

/-! The claims. -/

/-- C1, counterexample: the shaded channel for a per-channel product of
exactly 300 (channel 250, coloring factor 6/5 = ambient 0.2 + clamped
diffuse 1.0) is 255, not the wrapped byte 300 mod 256 = 44: Rust's
narrowing float-to-byte `as` cast saturates instead of wrapping. -/
theorem c1_wrap_counterexample :
    (shadeColor ⟨0, 1, 0⟩ ⟨0, 1, 0⟩ 1 (1 / 5) ⟨250, 250, 250, 255⟩).r = 255 ∧
    (shadeColor ⟨0, 1, 0⟩ ⟨0, 1, 0⟩ 1 (1 / 5) ⟨250, 250, 250, 255⟩).r ≠ 44 := by
  have h : (shadeColor ⟨0, 1, 0⟩ ⟨0, 1, 0⟩ 1 (1 / 5) ⟨250, 250, 250, 255⟩).r = 255 := by
    norm_num [shadeColor, colormap, coloringFactor, clampQ, dot3, rustCastU8, truncQ]
    rfl
  exact ⟨h, by rw [h]; norm_num⟩

/-- C1, amended: whenever `channel * coloring_factor` exceeds 255, the
narrowing byte conversion (`as u8`) saturates to 255 — the value is clamped
by the cast itself, and never wraps. -/
theorem c1_saturating_cast (comp : ℕ) (coloring : ℚ) (h : 255 < (comp : ℚ) * coloring) :
    colormap comp coloring = 255 := by
  unfold colormap
  exact rustCastU8_sat h

/-- Witness for C1's amended theorem at channel 250, factor 6/5. -/
theorem c1_saturating_cast_witness :
    (255 : ℚ) < (250 : ℚ) * (6 / 5) ∧ colormap 250 (6 / 5) = 255 :=
  ⟨by norm_num, c1_saturating_cast 250 (6 / 5) (by norm_num)⟩

/-- C2: for a front-facing screen triangle (strictly positive signed
area), the rasterizer's inside test `edge(p2,p3,q) ≥ 0 ∧ edge(p3,p1,q) ≥ 0
∧ edge(p1,p2,q) ≥ 0` holds at the three vertices and at the centroid. -/
theorem c2_winding_inside (p1 p2 p3 : Pt2) (h : is_front_facing p1 p2 p3 = true) :
    insideTri p1 p2 p3 p1 ∧ insideTri p1 p2 p3 p2 ∧ insideTri p1 p2 p3 p3 ∧
    insideTri p1 p2 p3 ⟨(p1.x + p2.x + p3.x) / 3, (p1.y + p2.y + p3.y) / 3⟩ := by
  have hc : 0 < signedCross p1 p2 p3 := of_decide_eq_true h
  unfold signedCross at hc
  refine ⟨⟨?_, ?_, ?_⟩, ⟨?_, ?_, ?_⟩, ⟨?_, ?_, ?_⟩, ⟨?_, ?_, ?_⟩⟩ <;>
    unfold edge <;> nlinarith [hc]

/-- Witness for C2 at the front-facing triangle (0,0), (10,0), (0,10). -/
theorem c2_winding_inside_witness :
    is_front_facing ⟨0, 0⟩ ⟨10, 0⟩ ⟨0, 10⟩ = true ∧
    (insideTri ⟨0, 0⟩ ⟨10, 0⟩ ⟨0, 10⟩ ⟨0, 0⟩ ∧
      insideTri ⟨0, 0⟩ ⟨10, 0⟩ ⟨0, 10⟩ ⟨10, 0⟩ ∧
      insideTri ⟨0, 0⟩ ⟨10, 0⟩ ⟨0, 10⟩ ⟨0, 10⟩ ∧
      insideTri ⟨0, 0⟩ ⟨10, 0⟩ ⟨0, 10⟩
        ⟨((0 : ℚ) + 10 + 0) / 3, ((0 : ℚ) + 0 + 10) / 3⟩) := by
  have h : is_front_facing ⟨0, 0⟩ ⟨10, 0⟩ ⟨0, 10⟩ = true := by
    simp only [is_front_facing, signedCross, decide_eq_true_eq]
    norm_num
  exact ⟨h, c2_winding_inside ⟨0, 0⟩ ⟨10, 0⟩ ⟨0, 10⟩ h⟩

/-- C6: flat shading is the stated deterministic function of color, normal
and light: the coloring factor is `ambient + clamp(dot(lightDir, normal) *
intensity, 0, 1) + 0`; each of R,G,B equals `floor(channel * factor)`
whenever the product lies in [0, 255]; alpha is passed through; identical
inputs give identical output; and a white triangle with factor exactly 1
stays white (light direction (0,1,0), normal (0, 7/10, 0), intensity 1,
ambient 3/10: diffuse 7/10, factor 1). -/
theorem c6_shading (lightDir norm : Vec3) (intensity ambient : ℚ) (c : Color) :
    (∀ (norm' : Vec3) (c' : Color), norm = norm' → c = c' →
      shadeColor lightDir norm intensity ambient c =
        shadeColor lightDir norm' intensity ambient c') ∧
    coloringFactor lightDir norm intensity ambient =
      ambient + clampQ (dot3 lightDir norm * intensity) 0 1 + 0 ∧
    (shadeColor lightDir norm intensity ambient c).a = c.a ∧
    (0 ≤ (c.r : ℚ) * coloringFactor lightDir norm intensity ambient →
      (c.r : ℚ) * coloringFactor lightDir norm intensity ambient ≤ 255 →
      ((shadeColor lightDir norm intensity ambient c).r : ℤ) =
        ⌊(c.r : ℚ) * coloringFactor lightDir norm intensity ambient⌋) ∧
    (0 ≤ (c.g : ℚ) * coloringFactor lightDir norm intensity ambient →
      (c.g : ℚ) * coloringFactor lightDir norm intensity ambient ≤ 255 →
      ((shadeColor lightDir norm intensity ambient c).g : ℤ) =
        ⌊(c.g : ℚ) * coloringFactor lightDir norm intensity ambient⌋) ∧
    (0 ≤ (c.b : ℚ) * coloringFactor lightDir norm intensity ambient →
      (c.b : ℚ) * coloringFactor lightDir norm intensity ambient ≤ 255 →
      ((shadeColor lightDir norm intensity ambient c).b : ℤ) =
        ⌊(c.b : ℚ) * coloringFactor lightDir norm intensity ambient⌋) ∧
    shadeColor ⟨0, 1, 0⟩ ⟨0, 7 / 10, 0⟩ 1 (3 / 10) ⟨255, 255, 255, 255⟩ =
      ⟨255, 255, 255, 255⟩ := by
  refine ⟨?_, rfl, rfl, ?_, ?_, ?_, ?_⟩
  · rintro norm' c' rfl rfl; rfl
  · intro h0 h255; exact rustCastU8_in_range h0 h255
  · intro h0 h255; exact rustCastU8_in_range h0 h255
  · intro h0 h255; exact rustCastU8_in_range h0 h255
  · show Color.mk _ _ _ _ = _
    norm_num [shadeColor, colormap, coloringFactor, clampQ, dot3, rustCastU8, truncQ]
    rfl

/-- Witness for C6 at channel 100, light (0,1,0)·normal (0,1,0), intensity
1, ambient 3/10 (product 130 ∈ [0, 255]). -/
theorem c6_shading_witness :
    (0 ≤ (100 : ℚ) * coloringFactor ⟨0, 1, 0⟩ ⟨0, 1, 0⟩ 1 (3 / 10) ∧
      (100 : ℚ) * coloringFactor ⟨0, 1, 0⟩ ⟨0, 1, 0⟩ 1 (3 / 10) ≤ 255) ∧
    ((shadeColor ⟨0, 1, 0⟩ ⟨0, 1, 0⟩ 1 (3 / 10) ⟨100, 0, 0, 7⟩).r : ℤ) =
      ⌊(100 : ℚ) * coloringFactor ⟨0, 1, 0⟩ ⟨0, 1, 0⟩ 1 (3 / 10)⌋ := by
  have h0 : (0 : ℚ) ≤ (100 : ℚ) * coloringFactor ⟨0, 1, 0⟩ ⟨0, 1, 0⟩ 1 (3 / 10) := by
    norm_num [coloringFactor, clampQ, dot3]
  have h255 : (100 : ℚ) * coloringFactor ⟨0, 1, 0⟩ ⟨0, 1, 0⟩ 1 (3 / 10) ≤ 255 := by
    norm_num [coloringFactor, clampQ, dot3]
  exact ⟨⟨h0, h255⟩,
    (c6_shading ⟨0, 1, 0⟩ ⟨0, 1, 0⟩ 1 (3 / 10) ⟨100, 0, 0, 7⟩).2.2.2.1 h0 h255⟩

/-- C8: swapping the last two vertices negates the signed area; the two
orderings are never both front-facing; for nonzero signed area exactly one
ordering is front-facing; for zero signed area neither is. -/
theorem c8_culling_antisym (p1 p2 p3 : Pt2) :
    signedCross p1 p3 p2 = -signedCross p1 p2 p3 ∧
    ¬(is_front_facing p1 p2 p3 = true ∧ is_front_facing p1 p3 p2 = true) ∧
    (signedCross p1 p2 p3 ≠ 0 →
      (is_front_facing p1 p2 p3 = true ↔ is_front_facing p1 p3 p2 = false)) ∧
    (signedCross p1 p2 p3 = 0 →
      is_front_facing p1 p2 p3 = false ∧ is_front_facing p1 p3 p2 = false) := by
  have hneg : signedCross p1 p3 p2 = -signedCross p1 p2 p3 := by
    unfold signedCross; ring
  refine ⟨hneg, ?_, ?_, ?_⟩
  · rintro ⟨h1, h2⟩
    have g1 : 0 < signedCross p1 p2 p3 := of_decide_eq_true h1
    have g2 : 0 < signedCross p1 p3 p2 := of_decide_eq_true h2
    rw [hneg] at g2; linarith
  · intro hne
    simp only [is_front_facing, hneg, decide_eq_true_eq, decide_eq_false_iff_not, not_lt]
    constructor
    · intro h; linarith
    · intro h
      rcases lt_or_gt_of_ne hne with h' | h'
      · linarith
      · exact h'
  · intro h0
    simp only [is_front_facing, hneg, h0, decide_eq_false_iff_not, not_lt, neg_zero, le_refl,
      and_self]

/-- Witness for C8 at the triangle (0,0), (10,0), (0,10) (nonzero signed
area, so exactly one ordering is front-facing). -/
theorem c8_culling_antisym_witness :
    signedCross ⟨0, 0⟩ ⟨10, 0⟩ ⟨0, 10⟩ ≠ 0 ∧
    (is_front_facing ⟨0, 0⟩ ⟨10, 0⟩ ⟨0, 10⟩ = true ↔
      is_front_facing ⟨0, 0⟩ ⟨0, 10⟩ ⟨10, 0⟩ = false) := by
  have hne : signedCross ⟨0, 0⟩ ⟨10, 0⟩ ⟨0, 10⟩ ≠ 0 := by
    norm_num [signedCross]
  exact ⟨hne, (c8_culling_antisym ⟨0, 0⟩ ⟨10, 0⟩ ⟨0, 10⟩).2.2.1 hne⟩

/-- C3: every pixel write of `draw_triangle` is the guarded `writeRGBA`
(which is a no-op unless `index + 4 <= frame.len()`), so the buffer length
never changes, no byte at a position ≥ `frame.len()` is ever modified, and
an unguarded index is silently skipped — for arbitrary screen vertices,
including ones far outside the image. -/
theorem c3_bounds_safety (normalizeF : Vec3 → Vec3) (light : Light) (t1 t2 t3 : Pt2)
    (color : Color) (frame : List ℕ) (norm : Vec3) :
    (draw_triangle normalizeF light t1 t2 t3 color frame norm).length = frame.length ∧
    (∀ j, frame.length ≤ j →
      (draw_triangle normalizeF light t1 t2 t3 color frame norm).getD j 0 =
        frame.getD j 0) ∧
    (∀ (fr : List ℕ) (idx : ℕ) (pc : Color), fr.length < idx + 4 →
      writeRGBA fr idx pc = fr) := by
  refine ⟨?_, ?_, ?_⟩
  · exact foldWrites_length _ _ _
  · intro j hj
    exact foldWrites_getD_ge _ _ _ hj
  · intro fr idx pc h
    exact writeRGBA_oob pc h

/-- Witness for C3 with a triangle reaching past the image (vertices at
x = −50 and x = 550) over a 5-byte buffer. -/
theorem c3_bounds_safety_witness :
    ([7, 7, 7, 7, 7] : List ℕ).length ≤ 9 ∧
    (draw_triangle (fun v => v) ⟨⟨0, 0, 0⟩, ⟨0, 0, 0⟩, 1, 1⟩ ⟨-50, 0⟩ ⟨550, 0⟩ ⟨0, 550⟩
        ⟨1, 2, 3, 4⟩ [7, 7, 7, 7, 7] ⟨0, 0, 1⟩).getD 9 0 =
      ([7, 7, 7, 7, 7] : List ℕ).getD 9 0 :=
  ⟨by norm_num,
    (c3_bounds_safety (fun v => v) ⟨⟨0, 0, 0⟩, ⟨0, 0, 0⟩, 1, 1⟩ ⟨-50, 0⟩ ⟨550, 0⟩ ⟨0, 550⟩
      ⟨1, 2, 3, 4⟩ [7, 7, 7, 7, 7] ⟨0, 0, 1⟩).2.1 9 (by norm_num)⟩

/-- C7: a triangle whose three screen vertices are real points (no NaN
sentinel) is rasterized exactly when the 2D cross product
`(p2.x−p1.x)(p3.y−p1.y) − (p2.y−p1.y)(p3.x−p1.x)` is strictly positive;
with zero signed area it is discarded with no writes to the buffer. -/
theorem c7_cull_gate (normalizeF : Vec3 → Vec3) (normOf : Vec3 → Vec3 → Vec3)
    (light : Light) (screen_verts : List (Option Pt2)) (transformed_verts : List Vec4)
    (tri : Triangle) (frame : List ℕ) (p1 p2 p3 : Pt2)
    (h1 : screen_verts.getD tri.v1 none = some p1)
    (h2 : screen_verts.getD tri.v2 none = some p2)
    (h3 : screen_verts.getD tri.v3 none = some p3) :
    is_front_facing p1 p2 p3 = decide (0 < signedCross p1 p2 p3) ∧
    triStep normalizeF normOf light screen_verts transformed_verts tri frame =
      (if 0 < signedCross p1 p2 p3 then
        draw_triangle normalizeF light p1 p2 p3 tri.color frame
          (normOf ((transformed_verts.getD tri.v2 v4zero).xyz.sub
              (transformed_verts.getD tri.v1 v4zero).xyz)
            ((transformed_verts.getD tri.v3 v4zero).xyz.sub
              (transformed_verts.getD tri.v1 v4zero).xyz))
      else frame) ∧
    (signedCross p1 p2 p3 = 0 →
      triStep normalizeF normOf light screen_verts transformed_verts tri frame = frame) := by
  have hmain : triStep normalizeF normOf light screen_verts transformed_verts tri frame =
      (if 0 < signedCross p1 p2 p3 then
        draw_triangle normalizeF light p1 p2 p3 tri.color frame
          (normOf ((transformed_verts.getD tri.v2 v4zero).xyz.sub
              (transformed_verts.getD tri.v1 v4zero).xyz)
            ((transformed_verts.getD tri.v3 v4zero).xyz.sub
              (transformed_verts.getD tri.v1 v4zero).xyz))
      else frame) := by
    unfold triStep
    rw [h1, h2, h3]
    simp only [is_front_facing, decide_eq_true_eq]
  refine ⟨rfl, hmain, ?_⟩
  intro h0
  rw [hmain, if_neg (by rw [h0]; exact lt_irrefl 0)]

/-- Witness for C7 at a concrete one-triangle scene with finite screen
vertices. -/
theorem c7_cull_gate_witness :
    ([some ⟨0, 0⟩, some ⟨10, 0⟩, some ⟨0, 10⟩] : List (Option Pt2)).getD 0 none =
        some ⟨0, 0⟩ ∧
    triStep (fun v => v) (fun a _ => a) ⟨⟨0, 0, 0⟩, ⟨0, 0, 0⟩, 1, 1⟩
        [some ⟨0, 0⟩, some ⟨10, 0⟩, some ⟨0, 10⟩] [v4zero, v4zero, v4zero]
        ⟨0, 1, 2, ⟨1, 2, 3, 4⟩⟩ [] =
      (if 0 < signedCross ⟨0, 0⟩ ⟨10, 0⟩ ⟨0, 10⟩ then
        draw_triangle (fun v => v) ⟨⟨0, 0, 0⟩, ⟨0, 0, 0⟩, 1, 1⟩ ⟨0, 0⟩ ⟨10, 0⟩ ⟨0, 10⟩
          ⟨1, 2, 3, 4⟩ []
          ((fun a _ => a : Vec3 → Vec3 → Vec3)
            ((([v4zero, v4zero, v4zero] : List Vec4).getD 1 v4zero).xyz.sub
              (([v4zero, v4zero, v4zero] : List Vec4).getD 0 v4zero).xyz)
            ((([v4zero, v4zero, v4zero] : List Vec4).getD 2 v4zero).xyz.sub
              (([v4zero, v4zero, v4zero] : List Vec4).getD 0 v4zero).xyz))
      else []) :=
  ⟨rfl,
    (c7_cull_gate (fun v => v) (fun a _ => a) ⟨⟨0, 0, 0⟩, ⟨0, 0, 0⟩, 1, 1⟩
      [some ⟨0, 0⟩, some ⟨10, 0⟩, some ⟨0, 10⟩] [v4zero, v4zero, v4zero]
      ⟨0, 1, 2, ⟨1, 2, 3, 4⟩⟩ [] ⟨0, 0⟩ ⟨10, 0⟩ ⟨0, 10⟩ rfl rfl rfl).2.1⟩

/-- C5: objects are sorted ascending by `object_depth` — the camera-space
z of the world origin under (view matrix regenerated from the current
camera) × (translation model matrix), with no dependence on the view
matrix passed to `draw` — and within an object the triangles are sorted
ascending by the mean of the three vertices' camera-space z taken from the
`zbuffer` built once per object from the passed-in view matrix. -/
theorem c5_painter_order (genView : Camera → Mat4) (normalizeF : Vec3 → Vec3)
    (normOf : Vec3 → Vec3 → Vec3) (w : World) (view_mat model_mat : Mat4) (mesh : Mesh)
    (frame : List ℕ) :
    (sortedModels genView w).Pairwise
      (fun a b => object_depth genView w.camera a.2 ≤ object_depth genView w.camera b.2) ∧
    (∀ (cam : Camera) (mm : Mat4), object_depth genView cam mm =
      (((genView cam).mul mm).transformPoint ⟨0, 0, 0⟩).z) ∧
    (World.draw genView normalizeF normOf w view_mat frame).2 =
      (sortedModels genView w).foldl
        (fun fr om => drawObject normalizeF normOf w.light w.proj_mat view_mat om fr)
        (List.replicate frame.length 255) ∧
    (zOrderedTris view_mat model_mat mesh).Pairwise (fun a b => a.2 ≤ b.2) ∧
    triKeyList view_mat model_mat mesh = mesh.tris.map (fun tri =>
      (tri, (((zbufferOf view_mat model_mat mesh.verts).getD tri.v1 v4zero).z +
        ((zbufferOf view_mat model_mat mesh.verts).getD tri.v2 v4zero).z +
        ((zbufferOf view_mat model_mat mesh.verts).getD tri.v3 v4zero).z) / 3)) := by
  refine ⟨?_, fun cam mm => rfl, rfl, ?_, rfl⟩
  · exact pairwise_mergeSort_key
      (fun a : Object × Mat4 => object_depth genView w.camera a.2) _
  · exact pairwise_mergeSort_key (fun a : Triangle × ℚ => a.2) _

/-- C10: `World::draw` takes `&mut self` but only reads it — the camera
(position, target, up, yaw, pitch), the light (position, target,
intensity, ambient), the object list (meshes and offsets), and the
projection matrix are all unchanged by a draw call. -/
theorem c10_draw_pure (genView : Camera → Mat4) (normalizeF : Vec3 → Vec3)
    (normOf : Vec3 → Vec3 → Vec3) (w : World) (view_mat : Mat4) (frame : List ℕ) :
    (World.draw genView normalizeF normOf w view_mat frame).1 = w ∧
    (World.draw genView normalizeF normOf w view_mat frame).1.camera.position =
      w.camera.position ∧
    (World.draw genView normalizeF normOf w view_mat frame).1.camera.target =
      w.camera.target ∧
    (World.draw genView normalizeF normOf w view_mat frame).1.camera.up = w.camera.up ∧
    (World.draw genView normalizeF normOf w view_mat frame).1.camera.yaw = w.camera.yaw ∧
    (World.draw genView normalizeF normOf w view_mat frame).1.camera.pitch =
      w.camera.pitch ∧
    (World.draw genView normalizeF normOf w view_mat frame).1.light.position =
      w.light.position ∧
    (World.draw genView normalizeF normOf w view_mat frame).1.light.target =
      w.light.target ∧
    (World.draw genView normalizeF normOf w view_mat frame).1.light.intensity =
      w.light.intensity ∧
    (World.draw genView normalizeF normOf w view_mat frame).1.light.ambient =
      w.light.ambient ∧
    (World.draw genView normalizeF normOf w view_mat frame).1.models = w.models ∧
    (World.draw genView normalizeF normOf w view_mat frame).1.proj_mat = w.proj_mat :=
  ⟨rfl, rfl, rfl, rfl, rfl, rfl, rfl, rfl, rfl, rfl, rfl, rfl⟩

/-- C4: a vertex's screen projection is the NaN sentinel exactly when the
homogeneous `w` vanishes (non-finite divide) or the post-divide `ndc_z`
lies outside [0, 1]; `ndc_z` exactly 0 or exactly 1 is visible; and a
triangle referencing a sentinel vertex is skipped entirely, writing
nothing. -/
theorem c4_depth_sentinel (proj : Mat4) (v : Vec3) :
    (screenVertex proj v = none ↔
      ((persProj proj v).w = 0 ∨ (persProj proj v).z / (persProj proj v).w < 0 ∨
        1 < (persProj proj v).z / (persProj proj v).w)) ∧
    ((persProj proj v).w ≠ 0 → (persProj proj v).z / (persProj proj v).w = 0 →
      (screenVertex proj v).isSome = true) ∧
    ((persProj proj v).w ≠ 0 → (persProj proj v).z / (persProj proj v).w = 1 →
      (screenVertex proj v).isSome = true) ∧
    (∀ (normalizeF : Vec3 → Vec3) (normOf : Vec3 → Vec3 → Vec3) (light : Light)
      (screen_verts : List (Option Pt2)) (transformed_verts : List Vec4) (tri : Triangle)
      (frame : List ℕ),
      (screen_verts.getD tri.v1 none = none ∨ screen_verts.getD tri.v2 none = none ∨
        screen_verts.getD tri.v3 none = none) →
      triStep normalizeF normOf light screen_verts transformed_verts tri frame = frame) := by
  refine ⟨?_, ?_, ?_, ?_⟩
  · unfold screenVertex
    by_cases hw : (persProj proj v).w = 0
    · simp [hw]
    · rw [if_neg hw]
      by_cases hz : 0 ≤ (persProj proj v).z / (persProj proj v).w ∧
          (persProj proj v).z / (persProj proj v).w ≤ 1
      · rw [if_pos hz]
        constructor
        · intro hcon
          exact absurd hcon (Option.some_ne_none _)
        · rintro (h | h | h)
          · exact absurd h hw
          · exact absurd h (not_lt.mpr hz.1)
          · exact absurd h (not_lt.mpr hz.2)
      · rw [if_neg hz]
        constructor
        · intro _
          rcases not_and_or.mp hz with h | h
          · exact Or.inr (Or.inl (not_le.mp h))
          · exact Or.inr (Or.inr (not_le.mp h))
        · intro _
          rfl
  · intro hw h0
    unfold screenVertex
    rw [if_neg hw, if_pos (by rw [h0]; norm_num)]
    rfl
  · intro hw h1
    unfold screenVertex
    rw [if_neg hw, if_pos (by rw [h1]; norm_num)]
    rfl
  · intro normalizeF normOf light screen_verts transformed_verts tri frame h
    rcases h with h | h | h <;>
      cases h1 : screen_verts.getD tri.v1 none <;>
      cases h2 : screen_verts.getD tri.v2 none <;>
      cases h3 : screen_verts.getD tri.v3 none <;>
      simp_all [triStep]

/-- Witness for C4: normalized depth −0.0001 and 1.0001 give the sentinel,
depth exactly 0 is visible (projection matrices offsetting `z` by those
amounts, vertex at the origin). -/
theorem c4_depth_sentinel_witness :
    screenVertex ⟨1, 0, 0, 0, 0, 1, 0, 0, 0, 0, 1, -1 / 10000, 0, 0, 0, 1⟩ ⟨0, 0, 0⟩ =
        none ∧
    screenVertex ⟨1, 0, 0, 0, 0, 1, 0, 0, 0, 0, 1, 10001 / 10000, 0, 0, 0, 1⟩ ⟨0, 0, 0⟩ =
        none ∧
    (screenVertex ⟨1, 0, 0, 0, 0, 1, 0, 0, 0, 0, 1, 0, 0, 0, 0, 1⟩ ⟨0, 0, 0⟩).isSome =
        true := by
  refine ⟨?_, ?_, ?_⟩
  · exact (c4_depth_sentinel _ _).1.mpr
      (Or.inr (Or.inl (by norm_num [persProj, Mat4.mulVec, homog])))
  · exact (c4_depth_sentinel _ _).1.mpr
      (Or.inr (Or.inr (by norm_num [persProj, Mat4.mulVec, homog])))
  · exact (c4_depth_sentinel _ _).2.1
      (by norm_num [persProj, Mat4.mulVec, homog])
      (by norm_num [persProj, Mat4.mulVec, homog])

/-- C9: when the triangle's maximum screen x is at least `WIDTH - 1`, the
x loop's upper bound `(max_x.min(WIDTH-1) + 1) as i32` equals `WIDTH`, so
the column `x = WIDTH` is visited; for a row `y` with `y + 1 < HEIGHT`, the
point `(WIDTH, y)` — if it passes the edge test and the loop bounds reach
it — is written at byte index `(y*WIDTH + WIDTH)*4 = (y+1)*WIDTH*4`, the
first pixel of row `y + 1`, because the byte-length guard
`index + 4 <= frame.len()` does not reject it. -/
theorem c9_row_bleed (normalizeF : Vec3 → Vec3) (light : Light) (t1 t2 t3 : Pt2)
    (color : Color) (norm : Vec3) (y : ℤ) (frame : List ℕ)
    (hlen : frame.length = WIDTH * HEIGHT * 4)
    (hmx : (WIDTH : ℚ) - 1 ≤ max (max t1.x t2.x) t3.x)
    (hminx : boxMinX t1 t2 t3 ≤ (WIDTH : ℤ))
    (hy1 : boxMinY t1 t2 t3 ≤ y) (hy2 : y ≤ boxMaxY t1 t2 t3)
    (hy3 : y + 1 < (HEIGHT : ℤ))
    (hin : insideTri t1 t2 t3 ⟨((WIDTH : ℤ) : ℚ), (y : ℚ)⟩) :
    boxMaxX t1 t2 t3 = (WIDTH : ℤ) ∧
    idxOf (WIDTH : ℤ) y = (y.toNat * WIDTH + WIDTH) * 4 ∧
    (y.toNat * WIDTH + WIDTH) * 4 = (y.toNat + 1) * WIDTH * 4 ∧
    (y.toNat * WIDTH + WIDTH) * 4 + 4 ≤ frame.length ∧
    ((draw_triangle normalizeF light t1 t2 t3 color frame norm).getD
        ((y.toNat * WIDTH + WIDTH) * 4) 0 =
      (shadeColor (normalizeF (light.target.sub light.position)) norm
        light.intensity light.ambient color).r ∧
     (draw_triangle normalizeF light t1 t2 t3 color frame norm).getD
        ((y.toNat * WIDTH + WIDTH) * 4 + 1) 0 =
      (shadeColor (normalizeF (light.target.sub light.position)) norm
        light.intensity light.ambient color).g ∧
     (draw_triangle normalizeF light t1 t2 t3 color frame norm).getD
        ((y.toNat * WIDTH + WIDTH) * 4 + 2) 0 =
      (shadeColor (normalizeF (light.target.sub light.position)) norm
        light.intensity light.ambient color).b ∧
     (draw_triangle normalizeF light t1 t2 t3 color frame norm).getD
        ((y.toNat * WIDTH + WIDTH) * 4 + 3) 0 =
      (shadeColor (normalizeF (light.target.sub light.position)) norm
        light.intensity light.ambient color).a) := by
  have hminy0 : 0 ≤ boxMinY t1 t2 t3 :=
    i32OfQ_nonneg_arg (le_max_right (min (min t1.y t2.y) t3.y) 0)
  have hy0 : 0 ≤ y := le_trans hminy0 hy1
  have hH : (HEIGHT : ℤ) = 500 := by norm_num [HEIGHT]
  have hy498 : y ≤ 498 := by omega
  have hbmax : boxMaxX t1 t2 t3 = (WIDTH : ℤ) := by
    unfold boxMaxX
    rw [min_eq_right hmx]
    have h1 : (WIDTH : ℚ) - 1 + 1 = ((WIDTH : ℤ) : ℚ) := by push_cast; ring
    rw [h1]
    unfold i32OfQ
    rw [truncQ_intCast]
    norm_num [WIDTH]
  have hxmem : (WIDTH : ℤ) ∈ intRange (boxMinX t1 t2 t3) (boxMaxX t1 t2 t3) :=
    mem_intRange.mpr ⟨hminx, hbmax.ge⟩
  have hymem : y ∈ intRange (boxMinY t1 t2 t3) (boxMaxY t1 t2 t3) :=
    mem_intRange.mpr ⟨hy1, hy2⟩
  have hmem : ((WIDTH : ℤ), y) ∈ pixelEvents t1 t2 t3 := by
    unfold pixelEvents
    rw [List.mem_flatMap]
    refine ⟨y, hymem, ?_⟩
    rw [List.mem_filterMap]
    exact ⟨(WIDTH : ℤ), hxmem, by rw [if_pos hin]⟩
  have hidx : idxOf (WIDTH : ℤ) y = (y.toNat * WIDTH + WIDTH) * 4 := by
    rw [idxOf_small (by norm_num [WIDTH]) (by norm_num [WIDTH]) hy0 (by omega)]
    simp only [WIDTH]
    omega
  have hguard : (y.toNat * WIDTH + WIDTH) * 4 + 4 ≤ frame.length := by
    rw [hlen]
    simp only [WIDTH, HEIGHT]
    omega
  refine ⟨hbmax, hidx, by ring, hguard, ?_⟩
  have hdt : draw_triangle normalizeF light t1 t2 t3 color frame norm =
      foldWrites
        (shadeColor (normalizeF (light.target.sub light.position)) norm
          light.intensity light.ambient color)
        (pixelEvents t1 t2 t3) frame := rfl
  rw [hdt]
  exact foldWrites_getD_mem _ _ _ _
    (by simp only [WIDTH]; omega)
    (fun e _ => idxOf_dvd e.1 e.2)
    hguard
    (Or.inl ⟨((WIDTH : ℤ), y), hmem, hidx⟩)

/-- Witness for C9: triangle (0,0), (600,0), (0,600) (max screen x = 600 ≥
499) at row y = 1 on a full 500×500×4 buffer — the x bound is 500 and the
point (500, 1) maps to the first pixel of row 2. -/
theorem c9_row_bleed_witness :
    boxMaxX ⟨0, 0⟩ ⟨600, 0⟩ ⟨0, 600⟩ = (WIDTH : ℤ) ∧
    idxOf (WIDTH : ℤ) 1 = ((1 : ℤ).toNat * WIDTH + WIDTH) * 4 := by
  have h := c9_row_bleed (fun v => v) ⟨⟨0, 0, 0⟩, ⟨0, 0, 0⟩, 1, 1⟩ ⟨0, 0⟩ ⟨600, 0⟩
    ⟨0, 600⟩ ⟨1, 2, 3, 4⟩ ⟨0, 0, 1⟩ 1 (List.replicate (500 * 500 * 4) 0)
    (by norm_num [WIDTH, HEIGHT])
    (by norm_num [WIDTH])
    (by norm_num [boxMinX, i32OfQ, truncQ, WIDTH])
    (by norm_num [boxMinY, i32OfQ, truncQ])
    (by norm_num [boxMaxY, i32OfQ, truncQ, HEIGHT])
    (by norm_num [HEIGHT])
    (by norm_num [insideTri, edge, WIDTH])
  exact ⟨h.1, h.2.1⟩
